import Mathlib

/-!
Verification of the chunked parallel bulk-loader
(`bulk_insert_method.py` and `bulk_insert_method_with_prog_bar.py`).

The data model is a columnar table: an ordered association list from column
name to the ordered list of cell values (Python dicts preserve insertion
order, so a list of pairs is a faithful rendering).  The serializer, chunker
and transaction logic are embedded as executable Lean functions translated
line by line from the Python source; the worker pool of `publish` is embedded
as a transition system.
-/

namespace PublicNotes

/-- Scalar cell value of a table column: Python `None`, an integer, or a
string.  These are the value shapes exercised by the loader. -/
inductive Value where
  | none
  | int (n : Int)
  | str (s : String)
deriving DecidableEq, Repr

/-- Columnar table: ordered list of (column name, values) pairs, mirroring a
Python `dict[str, list]` (insertion-ordered). -/
abbrev Table := List (String × List Value)

/-- Whitespace characters of Python's `\s` class / `str.strip()` (ASCII). -/
def pySpace (c : Char) : Bool :=
  c = ' ' || c = '\t' || c = '\n' || c = '\r' || c = '\x0b' || c = '\x0c'

/-- Python `str.strip()`: drop leading and trailing whitespace. -/
def pyStrip (s : String) : String :=
  String.mk (((s.data.dropWhile pySpace).reverse.dropWhile pySpace).reverse)

/-- ASCII lower-casing of one character, as Python `str.lower()` does on
ASCII input. -/
def lowerChar (c : Char) : Char :=
  if 'A' ≤ c ∧ c ≤ 'Z' then Char.ofNat (c.toNat + 32) else c

/-- Python `str.lower()` (ASCII fragment). -/
def pyLower (s : String) : String :=
  String.mk (s.data.map lowerChar)

/-- Python `str.replace(c, r)` for a single-character needle: every
occurrence of `c` is replaced by the string `r`. -/
def replaceChar (c : Char) (r : String) (s : String) : String :=
  String.mk (s.data.foldr (fun a acc => if a = c then r.data ++ acc else a :: acc) [])

/-- Python `str(x)` on the cell values the loader sees: `None` prints as
`"None"` (though `cln` short-circuits it first), integers in decimal,
strings as themselves. -/
def pyStr : Value → String
  | Value.none => "None"
  | Value.int n => toString n
  | Value.str s => s

/-- Test of the compiled pattern `^\s*(''|nan|N/A|NULL|NAT)\s*$` with
`re.IGNORECASE`: the whole string is optional whitespace around one of the
sentinel words (or two apostrophes), case-insensitively. -/
def isSentinel (s : String) : Bool :=
  let t := pyLower (pyStrip s)
  t = "\x27\x27" || t = "nan" || t = "n/a" || t = "null" || t = "nat"

/-- Python `comp.sub('', s)` for the anchored sentinel pattern: replace the
whole string by the empty string when it matches, else leave it unchanged. -/
def reSub (s : String) : String :=
  if isSentinel s then "" else s

/-- The inner sanitizer `cln` of `insert`:
`'' if x is None else comp.sub('', str(x).replace('"', '""').strip()).lower()`. -/
def cln (x : Value) : String :=
  match x with
  | Value.none => ""
  | v => pyLower (reSub (pyStrip (replaceChar '"' "\"\"" (pyStr v))))

/-- One field of the payload: `comp.sub('', cln(col)).replace('\n', '').replace('\r', '')`. -/
def sanitizeField (x : Value) : String :=
  replaceChar '\r' "" (replaceChar '\n' "" (reSub (cln x)))

/-- Python `'sep'.join(parts)`. -/
def joinSep (sep : String) : List String → String
  | [] => ""
  | [x] => x
  | x :: y :: xs => x ++ sep ++ joinSep sep (y :: xs)

/-- Length of the shortest column (`zip` truncates to it); `0` when there
are no columns, since Python `zip()` of no iterables is empty. -/
def minLen (cols : List (List Value)) : Nat :=
  match cols with
  | [] => 0
  | c :: cs => cs.foldl (fun m d => min m d.length) c.length

/-- Python `zip(*cols)`: transpose the column lists into rows, truncating at
the shortest column, empty when there are no columns. -/
def pyZip (cols : List (List Value)) : List (List Value) :=
  (List.range (minLen cols)).map (fun i => cols.map (fun c => c.getD i Value.none))

/-- The payload text `val` built inside `insert`:
`'\n'.join('|'.join(comp.sub('', cln(col)).replace('\n','').replace('\r','') for col in row) for row in zip(*chunk.values()))`. -/
def serializeChunk (chunk : Table) : String :=
  joinSep "\n" ((pyZip (chunk.map Prod.snd)).map (fun row => joinSep "|" (row.map sanitizeField)))

/-- Python `range(start, stop, step)` for a positive step: the indices
`start, start+step, …` strictly below `stop`.  (With `step = 0` Python
raises `ValueError`; callers guard that case explicitly.) -/
def pyRange (start stop step : Nat) : List Nat :=
  (List.range ((stop - start + step - 1) / step)).map (fun k => start + k * step)

/-- The chunker `chunk_data(data, chunk_size=50000)`: row count is the length
of the first column; each chunk re-pairs the keys with the slice
`v[i : i+chunk_size]` of every column.  The `try/except` wraps any failure
(`values[0]` on a table with no columns, or `range` with step 0) into a
re-raised chunking error. -/
def chunk_data (data : Table) (chunk_size : Nat := 50000) :
    Except String (List Table) :=
  let keys := data.map Prod.fst
  let values := data.map Prod.snd
  match values with
  | [] => Except.error "chunking failed"
  | v0 :: _ =>
    if chunk_size = 0 then Except.error "chunking failed"
    else Except.ok ((pyRange 0 v0.length chunk_size).map (fun i =>
      keys.zip (values.map (fun v => (v.drop i).take chunk_size))))

/-- Row count of a chunk as `chunk_data` determines it: the length of the
first column's value list. -/
def chunkRows (c : Table) : Nat :=
  ((c.headD ("", [])).2).length

/-- The column list `col` built in `insert` of `bulk_insert_method.py`:
`', '.join([x.replace('order', '"order"') if x == 'order' else x for x in chunk.keys()])`. -/
def colList (keys : List String) : String :=
  joinSep ", " (keys.map (fun x => if x = "order" then "\"order\"" else x))

/-- The COPY statement `sql` built in `insert` of `bulk_insert_method.py`
(an f-string around the schema, table and column list). -/
def sqlStatement (schema table : String) (keys : List String) : String :=
  "\n        COPY " ++ schema ++ "." ++ table ++ " (" ++ colList keys ++
    ") FROM STDIN\n        WITH (FORMAT CSV, DELIMITER E\x27|\x27, QUOTE E\x27\"\x27, ESCAPE E\x27\"\x27)\n    "

/-- Python `str(dict.keys())`, i.e. `repr` of a `dict_keys` view:
`dict_keys(['k1', 'k2'])`. -/
def dictKeysRepr (keys : List String) : String :=
  "dict_keys([" ++ joinSep ", " (keys.map (fun k => "\x27" ++ k ++ "\x27")) ++ "])"

/-- The COPY statement `query` built in `insert` of
`bulk_insert_method_with_prog_bar.py`: the f-string interpolates
`chunk.keys()` directly, so Python renders the `dict_keys` repr. -/
def queryProgBar (table : String) (keys : List String) : String :=
  "\n        COPY rxmedimate." ++ table ++ " (" ++ dictKeysRepr keys ++
    ") FROM STDIN\n        WITH (FORMAT CSV, DELIMITER E\x27|\x27, QUOTE E\x27\"\x27, ESCAPE E\x27\"\x27)\n    "

/-- Text between the first `(` and the next `)` of a string: the rendered
column-name list of a generated COPY statement. -/
def firstParenContent (s : String) : String :=
  String.mk ((((s.data.dropWhile (fun c => c ≠ '(')).drop 1).takeWhile (fun c => c ≠ ')')))

/-- Transaction-ending effect on the connection. -/
inductive TxAction where
  | commit
  | rollback
deriving DecidableEq, Repr

/-- Control flow of the `try/except` block of `insert`: execute the COPY
statement, write the payload, commit; on any exception roll back and
re-raise a wrapping `RuntimeError`.  The three booleans say whether each
step succeeds; the result is the list of transaction-ending actions
performed and whether `insert` raises. -/
def insertTx (copyOk writeOk commitOk : Bool) : List TxAction × Bool :=
  if copyOk then
    if writeOk then
      if commitOk then ([TxAction.commit], false)
      else ([TxAction.rollback], true)
    else ([TxAction.rollback], true)
  else ([TxAction.rollback], true)

/-- Modelled from the spec: the CSV-with-escape-quote parser used to read a
single unquoted payload field back (quote `"` and escape `"`), which is not
part of this repository.  Reading undoes the doubling of the quote
character: every `""` in the field denotes one literal `"`. -/
def csvParseField : List Char → List Char
  | '"' :: '"' :: rest => '"' :: csvParseField rest
  | c :: rest => c :: csvParseField rest
  | [] => []

/-- Modelled from the spec: string-level wrapper of `csvParseField`. -/
def csvParseFieldStr (s : String) : String :=
  String.mk (csvParseField s.data)

/-- Observable outcome of `publish` as far as resource usage goes: chunk the
table, then submit one `insert` per chunk (each `insert` opens exactly one
connection via `with connect(...)`).  Returns the number of loader
invocations (= connections opened) on success. -/
def publishLoadCount (data : Table) (chunk_size : Nat := 50000) :
    Except String Nat :=
  match chunk_data data chunk_size with
  | Except.error e => Except.error e
  | Except.ok chunks => Except.ok chunks.length

/-- State of the worker pool driving one `publish` call: chunk ids not yet
started, currently running, and finished (in completion order).  Models the
`ThreadPoolExecutor(max_workers=BULK_WORKERS)` used by `publish`: all chunks
are submitted up front, each worker runs one `insert` to completion, nothing
is cancelled, and leaving the `with` block waits for every task. -/
structure PoolState where
  queued : List Nat
  running : List Nat
  done : List Nat
deriving DecidableEq, Repr

/-- One scheduler step of the worker pool with `W` workers: start a queued
task when a worker is free, or finish a running task (appending it to the
completion order). -/
inductive PoolStep (W : Nat) : PoolState → PoolState → Prop where
  | start (t : Nat) (q : List Nat) (s : PoolState) :
      s.queued = t :: q → s.running.length < W →
      PoolStep W s ⟨q, t :: s.running, s.done⟩
  | finish (t : Nat) (r₁ r₂ : List Nat) (s : PoolState) :
      s.running = r₁ ++ t :: r₂ →
      PoolStep W s ⟨s.queued, r₁ ++ r₂, s.done ++ [t]⟩

/-- Reflexive-transitive closure of `PoolStep`. -/
inductive PoolReaches (W : Nat) : PoolState → PoolState → Prop where
  | refl (s : PoolState) : PoolReaches W s s
  | step {s t u : PoolState} : PoolStep W s t → PoolReaches W t u → PoolReaches W s u

/-- Initial pool state of a `publish` call over the given chunk ids. -/
def initPool (chunks : List Nat) : PoolState :=
  ⟨chunks, [], []⟩

/-- The pool has drained: `publish` may leave the `with ThreadPoolExecutor`
block only in such a state. -/
def PoolDone (s : PoolState) : Prop :=
  s.queued = [] ∧ s.running = []

/-- Result `publish` reports once the pool has drained: the first failed
chunk in completion order, if any (its exception is what the `as_completed`
loop re-raises wrapped in a `RuntimeError`), else success (`none`). -/
def publishResult (fails : Nat → Bool) (s : PoolState) : Option Nat :=
  s.done.find? fails

/-- Number of threads `BULK_WORKERS` configured in both source files. -/
def BULK_WORKERS : Nat := 4

/-- Strings with equal character lists are equal. -/
theorem string_data_ext {a b : String} (h : a.data = b.data) : a = b := by
  cases a; cases b; exact congrArg String.mk (by simpa using h)

/-- Character-list form of `pyStrip`: drop leading whitespace, then drop
trailing whitespace. -/
theorem pyStrip_data (s : String) :
    (pyStrip s).data = List.rdropWhile pySpace (s.data.dropWhile pySpace) := by
  simp [pyStrip, List.rdropWhile]

/-- Dropping from the right and then taking from the right recovers the
list. -/
theorem rdropWhile_append_rtakeWhile (p : Char → Bool) (m : List Char) :
    m.rdropWhile p ++ m.rtakeWhile p = m := by
  rw [List.rdropWhile, List.rtakeWhile, ← List.reverse_append,
    List.takeWhile_append_dropWhile, List.reverse_reverse]

/-- Any character list splits as leading whitespace, its stripped core, and
trailing whitespace. -/
theorem strip_decomp (l : List Char) :
    ∃ w₁ w₂, l = w₁ ++ List.rdropWhile pySpace (l.dropWhile pySpace) ++ w₂ ∧
      (∀ c ∈ w₁, pySpace c) ∧ (∀ c ∈ w₂, pySpace c) := by
  refine ⟨l.takeWhile pySpace, (l.dropWhile pySpace).rtakeWhile pySpace, ?_, ?_, ?_⟩
  · conv_lhs => rw [← List.takeWhile_append_dropWhile (p := pySpace) (l := l)]
    rw [List.append_assoc, rdropWhile_append_rtakeWhile]
  · exact fun c hc => List.mem_takeWhile_imp hc
  · exact fun c hc => List.mem_rtakeWhile_imp hc

/-- Stripping is idempotent on character lists. -/
theorem strip_data_idem (l : List Char) :
    List.rdropWhile pySpace
        ((List.rdropWhile pySpace (l.dropWhile pySpace)).dropWhile pySpace) =
      List.rdropWhile pySpace (l.dropWhile pySpace) := by
  set m := l.dropWhile pySpace with hm
  have hmm : m.dropWhile pySpace = m := by
    rw [hm]; exact List.dropWhile_idempotent pySpace l
  have hr : (m.rdropWhile pySpace).dropWhile pySpace = m.rdropWhile pySpace := by
    rw [List.dropWhile_eq_self_iff]
    intro hl
    have hpref : m.rdropWhile pySpace <+: m := List.rdropWhile_prefix pySpace m
    have hml : 0 < m.length :=
      lt_of_lt_of_le hl hpref.length_le
    have hhead := (List.dropWhile_eq_self_iff.mp hmm) hml
    have : (m.rdropWhile pySpace).get ⟨0, hl⟩ = m.get ⟨0, hml⟩ := by
      simp only [List.get_eq_getElem]
      exact hpref.getElem hl
    rw [this]
    exact hhead
  rw [hr, List.rdropWhile_idempotent]

/-- `pyStrip` is idempotent. -/
theorem pyStrip_pyStrip (s : String) : pyStrip (pyStrip s) = pyStrip s := by
  apply string_data_ext
  rw [pyStrip_data, pyStrip_data, strip_data_idem]

/-- Replacement folds act as the identity on lists avoiding the needle. -/
theorem foldr_replace_eq_self (ch : Char) (rl : List Char) (l : List Char) :
    (∀ c ∈ l, c ≠ ch) →
      l.foldr (fun a acc => if a = ch then rl ++ acc else a :: acc) [] = l := by
  induction l with
  | nil => intro _; rfl
  | cons a t ih =>
    intro h
    have ha : a ≠ ch := h a (List.mem_cons_self a t)
    rw [List.foldr_cons, if_neg ha, ih (fun c hc => h c (List.mem_cons_of_mem a hc))]

/-- A `replaceChar` whose needle does not occur leaves the string
unchanged. -/
theorem replaceChar_eq_self {ch : Char} {r : String} {s : String}
    (h : ∀ c ∈ s.data, c ≠ ch) : replaceChar ch r s = s :=
  string_data_ext (foldr_replace_eq_self ch r.data s.data h)

/-- Whitespace characters are not the double quote. -/
theorem pySpace_ne_quote {c : Char} (h : pySpace c) : c ≠ '"' := by
  intro hc; subst hc; exact absurd h (by decide)

/-- C1: chunking `id=[1,2,3]`, `name=["Alice","Bob",None]` with chunk size 2
yields exactly the chunks `{id:[1,2], name:["Alice","Bob"]}` and
`{id:[3], name:[None]}`, and the serializer of `insert` renders them as
`"1|alice\n2|bob"` and `"3|"` (None to empty, lowercased, pipe-joined
fields, newline-joined rows, no trailing newline). -/
theorem chunk_and_serialize_example_scenario :
    chunk_data [("id", [Value.int 1, Value.int 2, Value.int 3]),
                ("name", [Value.str "Alice", Value.str "Bob", Value.none])] 2 =
      Except.ok
        [[("id", [Value.int 1, Value.int 2]),
          ("name", [Value.str "Alice", Value.str "Bob"])],
         [("id", [Value.int 3]), ("name", [Value.none])]] ∧
    serializeChunk [("id", [Value.int 1, Value.int 2]),
                    ("name", [Value.str "Alice", Value.str "Bob"])] = "1|alice\n2|bob" ∧
    serializeChunk [("id", [Value.int 3]), ("name", [Value.none])] = "3|" := by
  refine ⟨rfl, ?_, ?_⟩ <;> decide

/-- C2 (counter-evidence): `insert` of `bulk_insert_method_with_prog_bar.py`
interpolates `chunk.keys()` directly into the f-string, so the text between
`(` and `)` of the generated statement is the Python `dict_keys` repr, not
the comma-space-joined column names; the `insert` of `bulk_insert_method.py`
does render the joined list with `order` quoted. -/
theorem prog_bar_column_list_is_dict_keys_repr :
    firstParenContent (queryProgBar "patients" ["id"]) = "dict_keys([\x27id\x27]" ∧
    colList ["id"] = "id" ∧
    firstParenContent (queryProgBar "patients" ["id"]) ≠ colList ["id"] ∧
    firstParenContent (sqlStatement "sch" "tbl" ["id", "order", "name"]) =
      colList ["id", "order", "name"] ∧
    colList ["id", "order", "name"] = "id, \"order\", name" := by
  refine ⟨?_, ?_, ?_, ?_, ?_⟩ <;> decide

/-- C3 (counterexample): a table whose columns have unequal lengths does not
make `chunk_data` raise; it returns a chunk whose columns still have the
unequal lengths 2 and 1 (Python list slicing never fails). -/
theorem chunk_data_unequal_columns_no_error :
    chunk_data [("a", [Value.int 1, Value.int 2]), ("b", [Value.int 9])] 50000 =
      Except.ok [[("a", [Value.int 1, Value.int 2]), ("b", [Value.int 9])]] := by
  rfl

/-- C3 (amended): `chunk_data` raises the wrapped chunking error exactly when
the table has no columns (for any chunk size); on a non-empty table with a
positive chunk size it always returns normally, even when the column lengths
are unequal. -/
theorem chunk_data_error_iff_no_columns (S : Nat) :
    chunk_data ([] : Table) S = Except.error "chunking failed" ∧
    ∀ data : Table, data ≠ [] → 0 < S →
      ∃ chunks, chunk_data data S = Except.ok chunks := by
  constructor
  · rfl
  · intro data hne hS
    match data with
    | [] => exact absurd rfl hne
    | p :: rest =>
      simp only [chunk_data, List.map_cons]
      rw [if_neg (Nat.pos_iff_ne_zero.mp hS)]
      exact ⟨_, rfl⟩

/-- Witness for `chunk_data_error_iff_no_columns` at chunk size 2 and a
concrete ragged table. -/
theorem chunk_data_error_iff_no_columns_witness :
    chunk_data ([] : Table) 2 = Except.error "chunking failed" ∧
    ∃ chunks,
      chunk_data [("a", [Value.int 1, Value.int 2]), ("b", [Value.int 9])] 2 =
        Except.ok chunks :=
  ⟨(chunk_data_error_iff_no_columns 2).1,
   (chunk_data_error_iff_no_columns 2).2
     [("a", [Value.int 1, Value.int 2]), ("b", [Value.int 9])]
     (by decide) (by decide)⟩

/-- C4: every string field equal, up to letter case and surrounding
whitespace, to one of the sentinel values `"NaN"`, `" null "`, `"N/A"`,
`"NaT"` or `""` is sanitized by `cln` (composed with the outer sentinel
substitution of `insert`) to the empty string, so it serializes to empty in
its field position. -/
theorem sentinel_fields_serialize_empty (s : String)
    (h : pyLower (pyStrip s) = "nan" ∨ pyLower (pyStrip s) = "null" ∨
         pyLower (pyStrip s) = "n/a" ∨ pyLower (pyStrip s) = "nat" ∨
         pyLower (pyStrip s) = "") :
    sanitizeField (Value.str s) = "" := by
  have hnq : ∀ c ∈ s.data, c ≠ '"' := by
    obtain ⟨w₁, w₂, hdec, hw₁, hw₂⟩ := strip_decomp s.data
    intro c hc
    rw [hdec] at hc
    rcases List.mem_append.mp hc with hc' | hc'
    · rcases List.mem_append.mp hc' with hc'' | hc''
      · exact pySpace_ne_quote (hw₁ c hc'')
      · intro hq
        subst hq
        have hmem : lowerChar '"' ∈ (pyLower (pyStrip s)).data := by
          show lowerChar '"' ∈ (pyStrip s).data.map lowerChar
          rw [pyStrip_data]
          exact List.mem_map_of_mem lowerChar hc''
        have hq2 : ('"' : Char) ∈ (pyLower (pyStrip s)).data := by
          simpa using hmem
        rcases h with h' | h' | h' | h' | h' <;> rw [h'] at hq2 <;> revert hq2 <;> decide
    · exact pySpace_ne_quote (hw₂ c hc')
  have h2 : replaceChar '"' "\"\"" s = s := replaceChar_eq_self hnq
  show replaceChar '\r' "" (replaceChar '\n' ""
      (reSub (pyLower (reSub (pyStrip (replaceChar '"' "\"\"" s)))))) = ""
  rw [h2]
  have hstrip : reSub (pyStrip s) = "" ∨ pyStrip s = "" := by
    rcases h with h' | h' | h' | h' | h'
    case inr.inr.inr.inr =>
      right
      apply string_data_ext
      have : (pyStrip s).data.map lowerChar = [] := by
        have := congrArg String.data h'
        simpa [pyLower] using this
      simpa using List.map_eq_nil_iff.mp this
    all_goals
      left
      have hsent : isSentinel (pyStrip s) = true := by
        simp only [isSentinel, pyStrip_pyStrip, h']
        decide
      simp only [reSub, hsent, if_true]
  rcases hstrip with h3 | h3
  · rw [h3]; rfl
  · rw [h3]; rfl

/-- Witness for `sentinel_fields_serialize_empty` at the field value
`" NuLl "`. -/
theorem sentinel_fields_serialize_empty_witness :
    sanitizeField (Value.str " NuLl ") = "" :=
  sentinel_fields_serialize_empty " NuLl " (Or.inr (Or.inl (by decide)))

/-- Normal form of `chunk_data` on a table with at least one column and a
positive chunk size. -/
theorem chunk_data_ok_form (p : String × List Value) (rest : List (String × List Value))
    (S : Nat) (hS : 0 < S) :
    chunk_data (p :: rest) S =
      Except.ok ((List.range ((p.2.length + S - 1) / S)).map (fun k =>
        ((p :: rest).map Prod.fst).zip
          (((p :: rest).map Prod.snd).map (fun v => (v.drop (k * S)).take S)))) := by
  simp only [chunk_data, List.map_cons]
  rw [if_neg (Nat.pos_iff_ne_zero.mp hS)]
  simp [pyRange, List.map_map, Function.comp]

/-- Ceiling division upper bound: `ceil(N/S)` chunks of `S` rows cover `N`
rows. -/
theorem ceil_mul_ge (N S : Nat) (hS : 0 < S) : N ≤ ((N + S - 1) / S) * S := by
  have hdm := Nat.div_add_mod (N + S - 1) S
  have hr : (N + S - 1) % S < S := Nat.mod_lt _ hS
  rw [Nat.mul_comm]
  omega

/-- Ceiling division lower bound: one chunk fewer does not reach `N` rows. -/
theorem pred_ceil_mul_lt (N S : Nat) (hS : 0 < S) (hN : 0 < N) :
    (((N + S - 1) / S) - 1) * S < N := by
  have h1 : ((N + S - 1) / S) * S ≤ N + S - 1 := Nat.div_mul_le_self _ _
  have h2 : (((N + S - 1) / S) - 1) * S = ((N + S - 1) / S) * S - 1 * S := Nat.sub_mul _ _ _
  omega

/-- Concatenating the `S`-sized slices of a list over `cnt` windows yields
its first `cnt * S` elements. -/
theorem slices_flatten_take (S : Nat) (v : List Value) (cnt : Nat) :
    ((List.range cnt).map (fun k => (v.drop (k * S)).take S)).flatten = v.take (cnt * S) := by
  induction cnt with
  | zero => simp
  | succ c ih =>
    rw [List.range_succ, List.map_append, List.flatten_append, ih, Nat.succ_mul, List.take_add]
    simp

/-- C5: for every table with equal-length columns and every positive chunk
size, the chunks of `chunk_data` carry the table's column names unchanged,
and concatenating the chunks' value lists column-wise, in order, reproduces
each source column exactly — no row duplicated or dropped. -/
theorem chunk_concat_reproduces_columns (data : Table) (N S : Nat) (hS : 0 < S)
    (hne : data ≠ []) (hlen : ∀ q ∈ data, (q.2 : List Value).length = N) :
    ∃ chunks, chunk_data data S = Except.ok chunks ∧
      (∀ c ∈ chunks, c.map Prod.fst = data.map Prod.fst) ∧
      ∀ j, (hj : j < data.length) →
        (chunks.map (fun c => (c.getD j ("", [])).2)).flatten = (data.get ⟨j, hj⟩).2 := by
  match data with
  | [] => exact absurd rfl hne
  | p :: rest =>
    rw [chunk_data_ok_form p rest S hS]
    refine ⟨_, rfl, ?_, ?_⟩
    · intro c hc
      obtain ⟨k, hk, rfl⟩ := List.mem_map.mp hc
      exact List.map_fst_zip _ _ (by simp)
    · intro j hj
      have hp2 : p.2.length = N := hlen p (List.mem_cons_self p rest)
      have hmapeq :
          ((List.range ((p.2.length + S - 1) / S)).map (fun k =>
              ((p :: rest).map Prod.fst).zip
                (((p :: rest).map Prod.snd).map (fun v => (v.drop (k * S)).take S)))).map
            (fun c => (c.getD j ("", [])).2)
          = (List.range ((p.2.length + S - 1) / S)).map (fun k =>
              ((((p :: rest).get ⟨j, hj⟩).2).drop (k * S)).take S) := by
        rw [List.map_map]
        apply List.map_congr_left
        intro k hk
        have hjz : j < ((((p :: rest).map Prod.fst)).zip
            (((p :: rest).map Prod.snd).map (fun v => (v.drop (k * S)).take S))).length := by
          simpa using hj
        simp only [Function.comp_apply]
        rw [List.getD_eq_getElem?_getD, List.getElem?_eq_getElem hjz, Option.getD_some]
        rw [List.getElem_zip]
        simp only [List.getElem_map, List.get_eq_getElem]
      rw [hmapeq, slices_flatten_take]
      apply List.take_of_length_le
      have hmem : (p :: rest).get ⟨j, hj⟩ ∈ (p :: rest) := List.get_mem _ _ hj
      rw [hlen _ hmem, hp2]
      exact ceil_mul_ge N S hS

/-- Witness for `chunk_concat_reproduces_columns` on a two-column table with
three rows and chunk size 2. -/
theorem chunk_concat_reproduces_columns_witness :
    ∃ chunks,
      chunk_data [("id", [Value.int 1, Value.int 2, Value.int 3]),
                  ("name", [Value.str "a", Value.str "b", Value.str "c"])] 2 =
        Except.ok chunks ∧
      (∀ c ∈ chunks,
        c.map Prod.fst =
          ([("id", [Value.int 1, Value.int 2, Value.int 3]),
            ("name", [Value.str "a", Value.str "b", Value.str "c"])] : Table).map Prod.fst) ∧
      ∀ j, (hj : j < ([("id", [Value.int 1, Value.int 2, Value.int 3]),
            ("name", [Value.str "a", Value.str "b", Value.str "c"])] : Table).length) →
        (chunks.map (fun c => (c.getD j ("", [])).2)).flatten =
          (([("id", [Value.int 1, Value.int 2, Value.int 3]),
             ("name", [Value.str "a", Value.str "b", Value.str "c"])] : Table).get ⟨j, hj⟩).2 :=
  chunk_concat_reproduces_columns
    [("id", [Value.int 1, Value.int 2, Value.int 3]),
     ("name", [Value.str "a", Value.str "b", Value.str "c"])] 3 2
    (by decide) (by decide) (by decide)

/-- C6: for every table with `N > 0` rows of equal-length columns and every
chunk size `S > 0`, `chunk_data` returns `ceil(N/S)` chunks; every chunk
before the last has exactly `S` rows and the last has `N mod S` rows (or `S`
when `S` divides `N`). -/
theorem chunk_count_and_last_size (data : Table) (N S : Nat) (hS : 0 < S) (hN : 0 < N)
    (hne : data ≠ []) (hlen : ∀ q ∈ data, (q.2 : List Value).length = N) :
    ∃ chunks, chunk_data data S = Except.ok chunks ∧
      chunks.length = (N + S - 1) / S ∧
      (∀ j, (hj : j < chunks.length) → j + 1 < chunks.length →
        chunkRows (chunks.get ⟨j, hj⟩) = S) ∧
      (∀ hlast : chunks.length - 1 < chunks.length,
        chunkRows (chunks.get ⟨chunks.length - 1, hlast⟩) =
          if N % S = 0 then S else N % S) := by
  match data with
  | [] => exact absurd rfl hne
  | p :: rest =>
    have hp2 : p.2.length = N := hlen p (List.mem_cons_self p rest)
    rw [chunk_data_ok_form p rest S hS, hp2]
    refine ⟨_, rfl, ?_, ?_, ?_⟩
    · simp
    · intro j hj hjsucc
      have hrows : chunkRows (((List.range ((N + S - 1) / S)).map (fun k =>
          ((p :: rest).map Prod.fst).zip
            (((p :: rest).map Prod.snd).map (fun v => (v.drop (k * S)).take S)))).get ⟨j, hj⟩)
          = min S (N - j * S) := by
        simp only [List.get_eq_getElem, List.getElem_map, List.getElem_range]
        simp [chunkRows, List.zip_cons_cons, hp2]
      rw [hrows]
      have hjc : j + 1 < (N + S - 1) / S := by simpa using hjsucc
      have hc1 : (j + 1) * S ≤ ((N + S - 1) / S - 1) * S := Nat.mul_le_mul_right S (by omega)
      have hc2 : ((N + S - 1) / S - 1) * S < N := pred_ceil_mul_lt N S hS hN
      have hc3 : (j + 1) * S = j * S + S := Nat.succ_mul j S
      exact Nat.min_eq_left (by omega)
    · intro hlast
      have hLlen : ((List.range ((N + S - 1) / S)).map (fun k =>
          ((p :: rest).map Prod.fst).zip
            (((p :: rest).map Prod.snd).map (fun v => (v.drop (k * S)).take S)))).length
          = (N + S - 1) / S := by simp
      have hrows : chunkRows (((List.range ((N + S - 1) / S)).map (fun k =>
          ((p :: rest).map Prod.fst).zip
            (((p :: rest).map Prod.snd).map (fun v => (v.drop (k * S)).take S)))).get
            ⟨((List.range ((N + S - 1) / S)).map (fun k =>
              ((p :: rest).map Prod.fst).zip
                (((p :: rest).map Prod.snd).map (fun v => (v.drop (k * S)).take S)))).length - 1,
              hlast⟩)
          = min S (N - (((List.range ((N + S - 1) / S)).map (fun k =>
              ((p :: rest).map Prod.fst).zip
                (((p :: rest).map Prod.snd).map (fun v => (v.drop (k * S)).take S)))).length - 1) * S) := by
        simp only [List.get_eq_getElem, List.getElem_map, List.getElem_range]
        simp [chunkRows, List.zip_cons_cons, hp2]
      rw [hrows, hLlen]
      have hlt : ((N + S - 1) / S - 1) * S < N := pred_ceil_mul_lt N S hS hN
      have hle : N ≤ ((N + S - 1) / S) * S := ceil_mul_ge N S hS
      have hsub : ((N + S - 1) / S - 1) * S = ((N + S - 1) / S) * S - 1 * S := Nat.sub_mul _ _ _
      have hr0 : 0 < N - ((N + S - 1) / S - 1) * S := by omega
      have hrS : N - ((N + S - 1) / S - 1) * S ≤ S := by omega
      have hNr : N = ((N + S - 1) / S - 1) * S + (N - ((N + S - 1) / S - 1) * S) := by omega
      have hmod : N % S = (N - ((N + S - 1) / S - 1) * S) % S := by
        conv_lhs => rw [hNr]
        rw [Nat.mul_comm]
        exact Nat.mul_add_mod _ _ _
      rcases Nat.lt_or_ge (N - ((N + S - 1) / S - 1) * S) S with hr | hr
      · rw [Nat.min_eq_right (Nat.le_of_lt hr)]
        rw [Nat.mod_eq_of_lt hr] at hmod
        rw [if_neg (by omega)]
        omega
      · have hreq : N - ((N + S - 1) / S - 1) * S = S := Nat.le_antisymm hrS hr
        rw [hreq, Nat.min_self]
        rw [hreq, Nat.mod_self] at hmod
        rw [if_pos hmod]

/-- Witness for `chunk_count_and_last_size` on a two-column table with three
rows and chunk size 2: two chunks, of 2 and 1 rows. -/
theorem chunk_count_and_last_size_witness :
    ∃ chunks,
      chunk_data [("id", [Value.int 1, Value.int 2, Value.int 3]),
                  ("nm", [Value.str "a", Value.str "b", Value.str "c"])] 2 =
        Except.ok chunks ∧
      chunks.length = (3 + 2 - 1) / 2 ∧
      (∀ j, (hj : j < chunks.length) → j + 1 < chunks.length →
        chunkRows (chunks.get ⟨j, hj⟩) = 2) ∧
      (∀ hlast : chunks.length - 1 < chunks.length,
        chunkRows (chunks.get ⟨chunks.length - 1, hlast⟩) =
          if 3 % 2 = 0 then 2 else 3 % 2) :=
  chunk_count_and_last_size
    [("id", [Value.int 1, Value.int 2, Value.int 3]),
     ("nm", [Value.str "a", Value.str "b", Value.str "c"])] 3 2
    (by decide) (by decide) (by decide) (by decide)

/-- C7: sanitizing the field `He said "hi"` yields `he said ""hi""` (quotes
doubled, then lowercased), and the CSV-with-escape-quote parser reads that
field back to the original value up to letter case. -/
theorem quote_escape_roundtrip :
    cln (Value.str "He said \"hi\"") = "he said \"\"hi\"\"" ∧
    csvParseFieldStr (cln (Value.str "He said \"hi\"")) = "he said \"hi\"" ∧
    pyLower "He said \"hi\"" = "he said \"hi\"" := by
  refine ⟨?_, ?_, ?_⟩ <;> decide

/-- C8: each run of the `try/except` block of `insert` performs exactly one
transaction-ending action; it is a commit exactly when statement execution,
payload write and commit all succeed, and a rollback (together with the
re-raised wrapping error) exactly when some step raises. -/
theorem insert_commit_xor_rollback :
    ∀ copyOk writeOk commitOk : Bool,
      (insertTx copyOk writeOk commitOk).1.length = 1 ∧
      ((insertTx copyOk writeOk commitOk).1 = [TxAction.commit] ↔
        (copyOk && writeOk && commitOk) = true) ∧
      ((insertTx copyOk writeOk commitOk).1 = [TxAction.rollback] ↔
        (copyOk && writeOk && commitOk) = false) ∧
      ((insertTx copyOk writeOk commitOk).2 = true ↔
        (insertTx copyOk writeOk commitOk).1 = [TxAction.rollback]) := by
  decide

/-- Each pool step keeps the number of running workers within the pool
bound. -/
theorem poolStep_running_le {W : Nat} {s t : PoolState} (h : PoolStep W s t)
    (hs : s.running.length ≤ W) : t.running.length ≤ W := by
  cases h with
  | start u q s hq hlt => simpa using hlt
  | finish u r₁ r₂ s hr =>
    have := congrArg List.length hr
    simp only [List.length_append, List.length_cons] at this
    simp only [List.length_append]
    omega

/-- Each pool step preserves the multiset of chunk ids across the queued,
running and done lists: nothing is duplicated, dropped or cancelled. -/
theorem poolStep_perm {W : Nat} {s t : PoolState} (h : PoolStep W s t) :
    List.Perm (t.queued ++ t.running ++ t.done) (s.queued ++ s.running ++ s.done) := by
  cases h with
  | start u q s hq hlt =>
    rw [hq]
    exact List.perm_middle.append_right s.done
  | finish u r₁ r₂ s hr =>
    rw [hr]
    show List.Perm (s.queued ++ (r₁ ++ r₂) ++ (s.done ++ [u]))
        (s.queued ++ (r₁ ++ u :: r₂) ++ s.done)
    rw [List.append_assoc s.queued, List.append_assoc s.queued]
    apply List.Perm.append_left
    have h1 : List.Perm ((r₁ ++ r₂) ++ (s.done ++ [u])) (u :: ((r₁ ++ r₂) ++ s.done)) := by
      rw [← List.append_assoc]
      exact List.perm_append_singleton u _
    have h2 : List.Perm ((r₁ ++ u :: r₂) ++ s.done) (u :: ((r₁ ++ r₂) ++ s.done)) :=
      List.perm_middle.append_right s.done
    exact h1.trans h2.symm

/-- Reachability invariant of the worker pool: the running set never exceeds
the pool bound, and the queued, running and done lists always hold exactly
the submitted chunk ids. -/
theorem poolReaches_inv {W : Nat} {chunks : List Nat} {s : PoolState}
    (h : PoolReaches W (initPool chunks) s) :
    s.running.length ≤ W ∧ List.Perm (s.queued ++ s.running ++ s.done) chunks := by
  have main : ∀ a b : PoolState, PoolReaches W a b →
      (a.running.length ≤ W ∧ List.Perm (a.queued ++ a.running ++ a.done) chunks) →
      (b.running.length ≤ W ∧ List.Perm (b.queued ++ b.running ++ b.done) chunks) := by
    intro a b hr
    induction hr with
    | refl s => exact id
    | step hst _ ih =>
      intro ha
      exact ih ⟨poolStep_running_le hst ha.1, (poolStep_perm hst).trans ha.2⟩
  apply main _ _ h
  constructor
  · simp [initPool]
  · simp [initPool]

/-- C9: for a `publish` of five chunks where only chunk 3 fails during load,
every reachable pool state keeps at most `BULK_WORKERS` (4) loads running at
once, and in every drained state — `publish` can only leave the executor
scope once queue and running set are empty, so the failure is reported only
after all outstanding work finishes — the completion list holds all five
chunks (none skipped or cancelled) and the reported result is the aggregated
error wrapping chunk 3's failure. -/
theorem publish_fail_fast_aggregation (s : PoolState)
    (h : PoolReaches BULK_WORKERS (initPool [1, 2, 3, 4, 5]) s) :
    s.running.length ≤ BULK_WORKERS ∧
    (PoolDone s → List.Perm s.done [1, 2, 3, 4, 5] ∧
      publishResult (fun t => t == 3) s = some 3) := by
  obtain ⟨hbound, hperm⟩ := poolReaches_inv h
  refine ⟨hbound, ?_⟩
  rintro ⟨hq, hr⟩
  have hdone : List.Perm s.done [1, 2, 3, 4, 5] := by
    rw [hq, hr] at hperm
    simpa using hperm
  refine ⟨hdone, ?_⟩
  have h3 : (3 : Nat) ∈ s.done := hdone.mem_iff.mpr (by decide)
  have hsome : (s.done.find? (fun t => t == 3)).isSome :=
    List.find?_isSome.mpr ⟨3, h3, by decide⟩
  obtain ⟨a, ha⟩ := Option.isSome_iff_exists.mp hsome
  have ha3 : a = 3 := by
    have := List.find?_some ha
    simpa using this
  unfold publishResult
  rw [ha, ha3]

/-- Witness for `publish_fail_fast_aggregation`: a concrete drained
execution of the five-chunk pool. -/
theorem publish_fail_fast_aggregation_witness :
    (PoolState.mk [] [] [1, 2, 3, 4, 5]).running.length ≤ BULK_WORKERS ∧
    (PoolDone (PoolState.mk [] [] [1, 2, 3, 4, 5]) →
      List.Perm (PoolState.mk [] [] [1, 2, 3, 4, 5]).done [1, 2, 3, 4, 5] ∧
      publishResult (fun t => t == 3) (PoolState.mk [] [] [1, 2, 3, 4, 5]) = some 3) := by
  apply publish_fail_fast_aggregation
  refine PoolReaches.step (PoolStep.start 1 [2, 3, 4, 5] ⟨[1, 2, 3, 4, 5], [], []⟩ rfl (by decide)) ?_
  refine PoolReaches.step (PoolStep.finish 1 [] [] ⟨[2, 3, 4, 5], [1], []⟩ rfl) ?_
  refine PoolReaches.step (PoolStep.start 2 [3, 4, 5] ⟨[2, 3, 4, 5], [], [1]⟩ rfl (by decide)) ?_
  refine PoolReaches.step (PoolStep.finish 2 [] [] ⟨[3, 4, 5], [2], [1]⟩ rfl) ?_
  refine PoolReaches.step (PoolStep.start 3 [4, 5] ⟨[3, 4, 5], [], [1, 2]⟩ rfl (by decide)) ?_
  refine PoolReaches.step (PoolStep.finish 3 [] [] ⟨[4, 5], [3], [1, 2]⟩ rfl) ?_
  refine PoolReaches.step (PoolStep.start 4 [5] ⟨[4, 5], [], [1, 2, 3]⟩ rfl (by decide)) ?_
  refine PoolReaches.step (PoolStep.finish 4 [] [] ⟨[5], [4], [1, 2, 3]⟩ rfl) ?_
  refine PoolReaches.step (PoolStep.start 5 [] ⟨[5], [], [1, 2, 3, 4]⟩ rfl (by decide)) ?_
  refine PoolReaches.step (PoolStep.finish 5 [] [] ⟨[], [5], [1, 2, 3, 4]⟩ rfl) ?_
  exact PoolReaches.refl _

/-- C10: a table with at least one column and zero rows chunks to the empty
list without error, so `publish` submits zero loader invocations (hence
opens zero connections, one being opened per `insert`) and completes
successfully. -/
theorem publish_zero_rows_no_loads (data : Table) (hne : data ≠ [])
    (hempty : ∀ p ∈ data, p.2 = ([] : List Value)) :
    chunk_data data 50000 = Except.ok [] ∧
    publishLoadCount data 50000 = Except.ok 0 := by
  have hok : chunk_data data 50000 = Except.ok [] := by
    match data with
    | [] => exact absurd rfl hne
    | p :: rest =>
      have hp : p.2 = ([] : List Value) := hempty p (List.mem_cons_self p rest)
      simp [chunk_data, pyRange, hp]
  refine ⟨hok, ?_⟩
  simp [publishLoadCount, hok]

/-- Witness for `publish_zero_rows_no_loads` on the one-column table
`{"id": []}`. -/
theorem publish_zero_rows_no_loads_witness :
    chunk_data [("id", ([] : List Value))] 50000 = Except.ok [] ∧
    publishLoadCount [("id", ([] : List Value))] 50000 = Except.ok 0 :=
  publish_zero_rows_no_loads [("id", [])] (by decide)
    (by intro p hp; simp at hp; rw [hp])

end PublicNotes
